import Mathlib

/-!
Shallow embedding of the adaptive question-selection core of the
`gmat-tutor` repository (files `database.py` and `scheduler.py`), together
with theorems settling the specification claims about it.

Conventions of the embedding:
* machine reals (Python floats) are idealised as `ℚ`;
* Python `round(x, 2)` (round-half-to-even) is `round2`;
* ISO timestamp strings are abstracted to integer day stamps, so
  `(now_dt - last_dt).days` becomes integer subtraction; an unparsable
  timestamp is modelled by the caller passing a day difference of `0`
  (the `except: days_since = 0` branch of `_calculate_weight`);
* SQLite tables are Lean lists of records, in insertion order;
* calls to the `random` module are driven by an explicit seed stream
  `r : ℕ → ℕ`; every outcome the Python code can produce corresponds to
  some seed stream, so universally quantified theorems cover every
  possible random outcome.
-/

namespace GmatTutor

open List (Perm)
open scoped List

/-- Round-half-to-even to the nearest integer (Python `round` on an
idealised exact value). -/
def rhe (q : ℚ) : ℤ :=
  if Int.fract q = 1/2 then (if 2 ∣ ⌊q⌋ then ⌊q⌋ else ⌊q⌋ + 1) else round q

/-- Python `round(x, 2)`: round to two decimal places, ties to even. -/
def round2 (q : ℚ) : ℚ := (rhe (q * 100) : ℚ) / 100

/-- `database.py`, `DatabaseManager._calculate_weight`.  The two timestamp
arguments `now`/`last_seen` enter only through the whole-day difference,
which we take as the parameter `days_since` (unparsable dates give `0`).
The source reassigns `time_factor` in the keep-alive branch; here the
pre-boost value is `time_factor0`. -/
def calculate_weight (error_count total : ℕ) (days_since : ℤ) : ℚ :=
  let BASE_WEIGHT : ℚ := 1
  let error_rate : ℚ := if total > 0 then (error_count : ℚ) / (total : ℚ) else 1/2
  let error_factor : ℚ := 1/2 + error_rate * (3/2)
  let time_factor0 : ℚ := min (3/2) (4/5 + (days_since : ℚ) * (1/20))
  let time_factor : ℚ :=
    if error_rate < 3/10 ∧ days_since > 7 then max time_factor0 (6/5) else time_factor0
  round2 (BASE_WEIGHT * error_factor * time_factor)

/-- Row of the `user_weaknesses` table (`database.py`, dataclass
`UserWeakness`); `last_seen` is a day stamp. -/
structure UserWeakness where
  tag : String
  error_count : ℕ
  total_attempts : ℕ
  last_seen : ℤ
  weight : ℚ
  deriving DecidableEq, Repr

/-- `database.py`, `DatabaseManager._update_weakness`, acting on the row
for the given tag (`none` when the tag has no row yet).  Returns the row
as stored afterwards. -/
def update_weakness (tag : String) (row : Option UserWeakness) (is_error : Bool)
    (now : ℤ) : UserWeakness :=
  match row with
  | some r =>
      let new_error_count := r.error_count + (if is_error then 1 else 0)
      let new_total := r.total_attempts + 1
      { tag := tag
        error_count := new_error_count
        total_attempts := new_total
        last_seen := now
        weight := calculate_weight new_error_count new_total (now - r.last_seen) }
  | none =>
      { tag := tag
        error_count := if is_error then 1 else 0
        total_attempts := 1
        last_seen := now
        weight := if is_error then 2 else 1 }

/-- `_calculate_weight` with the keep-alive `max(time_factor, 1.2)` boost
removed (the refinement target of claim C10). -/
def calculate_weight_noboost (error_count total : ℕ) (days_since : ℤ) : ℚ :=
  let BASE_WEIGHT : ℚ := 1
  let error_rate : ℚ := if total > 0 then (error_count : ℚ) / (total : ℚ) else 1/2
  let error_factor : ℚ := 1/2 + error_rate * (3/2)
  let time_factor : ℚ := min (3/2) (4/5 + (days_since : ℚ) * (1/20))
  round2 (BASE_WEIGHT * error_factor * time_factor)

-- ===== helper lemmas on rounding and the weight formula =====

theorem round_of_fract_lt_half (q : ℚ) (h : Int.fract q < 1/2) : round q = ⌊q⌋ := by
  rw [round_eq]
  apply Int.floor_eq_iff.mpr
  have h0 : (0:ℚ) ≤ Int.fract q := Int.fract_nonneg q
  have hq : (⌊q⌋ : ℚ) + Int.fract q = q := Int.floor_add_fract q
  constructor <;> linarith

theorem round_of_half_lt_fract (q : ℚ) (h : 1/2 < Int.fract q) : round q = ⌊q⌋ + 1 := by
  rw [round_eq]
  apply Int.floor_eq_iff.mpr
  have h1 : Int.fract q < 1 := Int.fract_lt_one q
  have hq : (⌊q⌋ : ℚ) + Int.fract q = q := Int.floor_add_fract q
  constructor <;> push_cast <;> linarith


theorem rhe_lb (q : ℚ) : ⌊q⌋ ≤ rhe q := by
  unfold rhe
  split
  · split <;> omega
  · rw [round_eq]
    exact Int.floor_mono (by linarith)

theorem rhe_ub (q : ℚ) : rhe q ≤ ⌊q⌋ + 1 := by
  unfold rhe
  split
  · split <;> omega
  · rcases lt_or_le (Int.fract q) (1/2) with hlt | hge
    · rw [round_of_fract_lt_half q hlt]; omega
    · have hgt : 1/2 < Int.fract q := lt_of_le_of_ne hge (by intro hc; simp_all)
      rw [round_of_half_lt_fract q hgt]

theorem rhe_mono {a b : ℚ} (hab : a ≤ b) : rhe a ≤ rhe b := by
  have hfab : ⌊a⌋ ≤ ⌊b⌋ := Int.floor_mono hab
  rcases eq_or_lt_of_le hfab with heq | hlt
  · -- same floor: compare fractional parts
    have hq : ((⌊a⌋ : ℚ)) = ((⌊b⌋ : ℚ)) := by exact_mod_cast heq
    have hfr : Int.fract a ≤ Int.fract b := by
      have ha := Int.floor_add_fract a
      have hb := Int.floor_add_fract b
      linarith
    by_cases ha2 : Int.fract a = 1/2 <;> by_cases hb2 : Int.fract b = 1/2
    · -- both ties: a = b
      have hab2 : a = b := by
        have ha := Int.floor_add_fract a
        have hb := Int.floor_add_fract b
        rw [ha2] at ha
        rw [hb2] at hb
        linarith
      rw [hab2]
    · -- a tie, b strictly above the tie
      have hgt : 1/2 < Int.fract b := lt_of_le_of_ne (ha2 ▸ hfr) (Ne.symm hb2)
      unfold rhe
      rw [if_pos ha2, if_neg hb2, round_of_half_lt_fract b hgt, heq]
      split <;> omega
    · -- b tie, a strictly below the tie
      have hlt2 : Int.fract a < 1/2 := lt_of_le_of_ne (hb2 ▸ hfr) ha2
      unfold rhe
      rw [if_neg ha2, if_pos hb2, round_of_fract_lt_half a hlt2, heq]
      split <;> omega
    · -- neither is a tie: plain rounding is monotone
      unfold rhe
      rw [if_neg ha2, if_neg hb2, round_eq, round_eq]
      exact Int.floor_mono (by linarith)
  · calc rhe a ≤ ⌊a⌋ + 1 := rhe_ub a
    _ ≤ ⌊b⌋ := hlt
    _ ≤ rhe b := rhe_lb b

theorem round2_mono {a b : ℚ} (hab : a ≤ b) : round2 a ≤ round2 b := by
  unfold round2
  have h := rhe_mono (mul_le_mul_of_nonneg_right hab (by norm_num : (0:ℚ) ≤ 100))
  have h2 : ((rhe (a * 100) : ℚ)) ≤ ((rhe (b * 100) : ℚ)) := by exact_mod_cast h
  linarith

theorem rhe_intCast (n : ℤ) : rhe (n : ℚ) = n := by
  unfold rhe
  rw [Int.fract_intCast, if_neg (by norm_num : (0:ℚ) ≠ 1/2), round_intCast]

theorem round2_eq_of_mul_hundred (q : ℚ) (n : ℤ) (h : q * 100 = (n : ℚ)) :
    round2 q = (n : ℚ) / 100 := by
  unfold round2
  rw [h, rhe_intCast]

/-- Whenever the keep-alive guard `days_since > 7` holds, the linear time
factor is already at least `1.2`, so the `max` with `1.2` changes nothing. -/
theorem time_factor_boost_noop (d : ℤ) (hd : d > 7) :
    max (min (3/2 : ℚ) (4/5 + (d : ℚ) * (1/20))) (6/5) =
      min (3/2 : ℚ) (4/5 + (d : ℚ) * (1/20)) := by
  apply max_eq_left
  apply le_min
  · norm_num
  · have h8 : (8 : ℚ) ≤ (d : ℚ) := by exact_mod_cast hd
    linarith

theorem calculate_weight_def (e t : ℕ) (d : ℤ) :
    calculate_weight e t d =
      round2 (1 * (1/2 + (if t > 0 then (e : ℚ)/(t : ℚ) else 1/2) * (3/2)) *
        (if (if t > 0 then (e : ℚ)/(t : ℚ) else 1/2) < 3/10 ∧ d > 7
         then max (min (3/2) (4/5 + (d : ℚ) * (1/20))) (6/5)
         else min (3/2) (4/5 + (d : ℚ) * (1/20)))) := rfl

theorem calculate_weight_noboost_def (e t : ℕ) (d : ℤ) :
    calculate_weight_noboost e t d =
      round2 (1 * (1/2 + (if t > 0 then (e : ℚ)/(t : ℚ) else 1/2) * (3/2)) *
        min (3/2) (4/5 + (d : ℚ) * (1/20))) := rfl

/-- The boost branch of `_calculate_weight` is unreachable in effect. -/
theorem calculate_weight_eq_noboost (e t : ℕ) (d : ℤ) :
    calculate_weight e t d = calculate_weight_noboost e t d := by
  rw [calculate_weight_def, calculate_weight_noboost_def]
  by_cases hc : ((if t > 0 then (e : ℚ)/(t : ℚ) else 1/2) < 3/10 ∧ d > 7)
  · rw [if_pos hc, time_factor_boost_noop d hc.2]
  · rw [if_neg hc]

-- ===== claims about the weight formula =====

/-- C1: for every already-existing weakness record, `_update_weakness`
recomputes the weight as `round(error_factor * time_factor, 2)` with
`error_factor = 0.5 + (error_count/attempt_count) * 1.5` and
`time_factor = min(1.5, 0.8 + days_since * 0.05)`, raised to at least
`1.2` when `error_rate < 0.3` and `days_since > 7`; for
`error_count = 6`, `attempt_count = 10`, `days_since = 3` the weight
is `1.33`. -/
theorem C1_update_recomputes_weight_by_formula :
    (∀ (w : UserWeakness) (err : Bool) (now : ℤ),
      (update_weakness w.tag (some w) err now).weight =
        round2 ((1/2 + ((w.error_count + (if err then 1 else 0) : ℕ) : ℚ) /
              ((w.total_attempts + 1 : ℕ) : ℚ) * (3/2)) *
          (if ((w.error_count + (if err then 1 else 0) : ℕ) : ℚ) /
              ((w.total_attempts + 1 : ℕ) : ℚ) < 3/10 ∧ now - w.last_seen > 7
           then max (min (3/2) (4/5 + ((now - w.last_seen : ℤ) : ℚ) * (1/20))) (6/5)
           else min (3/2) (4/5 + ((now - w.last_seen : ℤ) : ℚ) * (1/20)))))
    ∧ calculate_weight 6 10 3 = 133/100 := by
  constructor
  · intro w err now
    show calculate_weight (w.error_count + (if err then 1 else 0))
        (w.total_attempts + 1) (now - w.last_seen) = _
    rw [calculate_weight_def]
    have ht : (w.total_attempts + 1 : ℕ) > 0 := Nat.succ_pos _
    simp only [if_pos ht, one_mul]
  · have h1 : calculate_weight 6 10 3 = round2 (133/100) := by
      rw [calculate_weight_def]
      norm_num [min_def]
    rw [h1, round2_eq_of_mul_hundred _ 133 (by norm_num)]
    norm_num

/-- C3 counterexample: on the very first update for a tag the code sets
weight `2.0` (error case) by a separate first-use rule, whereas the general
formula at `error_count = 1`, `attempt_count = 1`, `days_since = 0` gives
`1.6`. -/
theorem C3_counterexample_first_use_rule :
    (update_weakness "Weaken" none true 0).weight = 2 ∧
    calculate_weight 1 1 0 = 8/5 ∧ (2 : ℚ) ≠ 8/5 := by
  refine ⟨rfl, ?_, by norm_num⟩
  have h1 : calculate_weight 1 1 0 = round2 (8/5) := by
    rw [calculate_weight_def]
    norm_num [min_def]
  rw [h1, round2_eq_of_mul_hundred _ 160 (by norm_num)]
  norm_num

/-- C3 amended: the first update for an unknown tag creates the record with
`attempt_count = 1`, `error_count = 1` iff the attempt was an error,
`last_seen = now`, and a weight set by a separate first-use rule —
`2.0` if the attempt was an error, else `1.0` — not by the general
weight formula. -/
theorem C3_first_update_creates_record (tag : String) (err : Bool) (now : ℤ) :
    update_weakness tag none err now =
      { tag := tag, error_count := if err then 1 else 0, total_attempts := 1,
        last_seen := now, weight := if err then 2 else 1 } := rfl

/-- C10: the keep-alive boost branch of `_calculate_weight` is a no-op:
whenever `error_rate < 0.3` and `days_since > 7`, the linear term
`0.8 + days_since * 0.05` is already at least `1.2`, so the formula with
the `max(time_factor, 1.2)` boost removed computes the same value on all
inputs. -/
theorem C10_keep_alive_boost_is_noop (e t : ℕ) (d : ℤ) :
    calculate_weight e t d = calculate_weight_noboost e t d :=
  calculate_weight_eq_noboost e t d

/-- C9: for fixed `attempt_count > 0` and fixed `days_since ≥ 0`, the
computed weight is monotonically non-decreasing in `error_count` over
`0 ≤ error_count ≤ attempt_count`, including across the
`error_rate = 0.3` boundary where the boost condition switches off. -/
theorem C9_weight_mono_in_error_count (t : ℕ) (d : ℤ) (e1 e2 : ℕ)
    (ht : 0 < t) (h12 : e1 ≤ e2) (_h2t : e2 ≤ t) (hd : 0 ≤ d) :
    calculate_weight e1 t d ≤ calculate_weight e2 t d := by
  rw [calculate_weight_eq_noboost, calculate_weight_eq_noboost,
    calculate_weight_noboost_def, calculate_weight_noboost_def]
  have htq : (0:ℚ) < (t:ℚ) := by exact_mod_cast ht
  have hdq : (0:ℚ) ≤ (d:ℚ) := by exact_mod_cast hd
  have htf : (0:ℚ) ≤ min (3/2) (4/5 + (d:ℚ) * (1/20)) :=
    le_min (by norm_num) (by linarith)
  apply round2_mono
  rw [if_pos ht, if_pos ht]
  have hdiv : (e1:ℚ)/(t:ℚ) ≤ (e2:ℚ)/(t:ℚ) := by
    apply div_le_div_of_nonneg_right ?_ htq.le
    exact_mod_cast h12
  have hef : (1/2 + (e1:ℚ)/(t:ℚ) * (3/2)) ≤ 1/2 + (e2:ℚ)/(t:ℚ) * (3/2) := by linarith
  have := mul_le_mul_of_nonneg_right hef htf
  linarith

/-- C9 witness: concrete instance `t = 4`, `d = 0`, `e = 1 ≤ 2`. -/
theorem C9_witness :
    0 < 4 ∧ (1:ℕ) ≤ 2 ∧ (2:ℕ) ≤ 4 ∧ (0:ℤ) ≤ 0 ∧
      calculate_weight 1 4 0 ≤ calculate_weight 2 4 0 :=
  ⟨by decide, by decide, by decide, by decide,
    C9_weight_mono_in_error_count 4 0 1 2 (by decide) (by decide) (by decide) (by decide)⟩

-- ===== data model of the store (`database.py` dataclasses and tables) =====

/-- `database.py`, dataclass `Question` (ids are non-`None` once stored). -/
structure Question where
  id : ℕ
  passage_id : Option ℕ
  category : String
  subcategory : String
  content : String
  options : List String
  correct_answer : ℕ
  skill_tags : List String
  difficulty : ℕ
  explanation : Option String := none
  deriving DecidableEq, Repr

/-- `database.py`, dataclass `StudyLog`; the timestamp is a day stamp. -/
structure StudyLog where
  id : ℕ
  question_id : ℕ
  user_answer : ℕ
  is_correct : Bool
  time_taken : ℕ
  error_category : Option String := none
  error_detail : Option String := none
  timestamp : ℤ
  deriving DecidableEq, Repr

/-- The SQLite database of `DatabaseManager`: the three tables that the
scheduling core touches, each as a list of rows in insertion order
(`study_logs` most-recent-first, as `get_study_logs` returns them). -/
structure Db where
  questions : List Question
  study_logs : List StudyLog
  weaknesses : List UserWeakness
  deriving DecidableEq, Repr

/-- `DatabaseManager.get_question`. -/
def get_question (db : Db) (qid : ℕ) : Option Question :=
  db.questions.find? (fun q => q.id = qid)

/-- `DatabaseManager.get_questions_by_tags`.  The SQL `LIKE '%"tag"%'`
match on the JSON-encoded tag list is abstracted to exact membership,
faithful for tags without embedded quote characters. -/
def get_questions_by_tags (db : Db) (tags : List String) (limit : ℕ) : List Question :=
  (db.questions.filter (fun q => tags.any (fun tg => tg ∈ q.skill_tags))).take limit

/-- `DatabaseManager.get_all_questions`. -/
def get_all_questions (db : Db) : List Question := db.questions

/-- `DatabaseManager.get_study_logs` (most-recent-first order is the list
order of `Db.study_logs`). -/
def get_study_logs (db : Db) (limit : ℕ) : List StudyLog := db.study_logs.take limit

/-- `DatabaseManager.get_all_weaknesses`.  The SQL `ORDER BY weight DESC`
is abstracted away: the scheduler immediately rebuilds a tag-keyed dict,
and the tie order of equal weights is unspecified in SQL. -/
def get_all_weaknesses (db : Db) : List UserWeakness := db.weaknesses

/-- Lookup in the scheduler's `{w.tag: w}` dict (tags are a primary key,
so `find?` is the dict lookup). -/
def find_weakness (ws : List UserWeakness) (tag : String) : Option UserWeakness :=
  ws.find? (fun w => w.tag = tag)

-- ===== the `random` module, driven by an explicit seed stream =====

/-- One generic "pick `k` elements one at a time, removing each pick"
loop, the common shape of `random.sample`, the weighted
sampling-without-replacement loop of `_weighted_sample`, and (with
`k = length`) `random.shuffle`.  The seed stream `r` chooses the index
removed at each step; every sequence of picks the Python code can make
corresponds to some seed stream. -/
def draw {α : Type} (r : ℕ → ℕ) (t : ℕ) : List α → ℕ → List α
  | _, 0 => []
  | xs, k+1 =>
    match xs[r t % xs.length]? with
    | some x => x :: draw r (t+1) (xs.eraseIdx (r t % xs.length)) k
    | none => []

/-- `random.shuffle`: a permutation of the input, chosen by the seeds. -/
def pyShuffle {α : Type} (r : ℕ → ℕ) (t : ℕ) (xs : List α) : List α :=
  draw r t xs xs.length

theorem cons_eraseIdx_perm {α : Type} {xs : List α} {i : ℕ} {x : α}
    (h : xs[i]? = some x) : (x :: xs.eraseIdx i).Perm xs := by
  have hi : i < xs.length := by
    by_contra hge
    rw [List.getElem?_eq_none (by omega)] at h
    exact Option.noConfusion h
  have hx : xs[i] = x := by
    have := List.getElem?_eq_getElem hi
    rw [this] at h
    exact Option.some.inj h
  rw [List.eraseIdx_eq_take_drop_succ]
  conv_rhs => rw [← List.take_append_drop i xs]
  have hd : xs.drop i = x :: xs.drop (i+1) := by
    rw [List.drop_eq_getElem_cons hi, hx]
  rw [hd]
  exact List.perm_middle.symm

theorem draw_coe_le {α : Type} (r : ℕ → ℕ) (k : ℕ) :
    ∀ (t : ℕ) (xs : List α), ((draw r t xs k : List α) : Multiset α) ≤ (xs : Multiset α) := by
  induction k with
  | zero => intro t xs; simp [draw]
  | succ k ih =>
    intro t xs
    unfold draw
    cases h : xs[r t % xs.length]? with
    | none => simp
    | some x =>
      have hperm := cons_eraseIdx_perm h
      calc ((x :: draw r (t+1) (xs.eraseIdx (r t % xs.length)) k : List α) : Multiset α)
          = x ::ₘ ((draw r (t+1) (xs.eraseIdx (r t % xs.length)) k : List α) : Multiset α) := by
            simp
        _ ≤ x ::ₘ ((xs.eraseIdx (r t % xs.length) : List α) : Multiset α) :=
            Multiset.cons_le_cons x (ih (t+1) _)
        _ = ((x :: xs.eraseIdx (r t % xs.length) : List α) : Multiset α) := by simp
        _ = (xs : Multiset α) := Multiset.coe_eq_coe.mpr hperm

theorem draw_length {α : Type} (r : ℕ → ℕ) (k : ℕ) :
    ∀ (t : ℕ) (xs : List α), (draw r t xs k).length = min k xs.length := by
  induction k with
  | zero => intro t xs; simp [draw]
  | succ k ih =>
    intro t xs
    unfold draw
    cases h : xs[r t % xs.length]? with
    | none =>
      have hlen : xs.length = 0 := by
        by_contra hne
        have hi : r t % xs.length < xs.length := Nat.mod_lt _ (Nat.pos_of_ne_zero hne)
        rw [List.getElem?_eq_getElem hi] at h
        exact Option.noConfusion h
      simp [hlen]
    | some x =>
      have hi : r t % xs.length < xs.length := by
        by_contra hge
        rw [List.getElem?_eq_none (by omega)] at h
        exact Option.noConfusion h
      have hlen : (xs.eraseIdx (r t % xs.length)).length + 1 = xs.length :=
        List.length_eraseIdx_add_one hi
      simp only [List.length_cons, ih]
      omega

theorem pyShuffle_perm {α : Type} (r : ℕ → ℕ) (t : ℕ) (xs : List α) :
    (pyShuffle r t xs).Perm xs := by
  rw [← Multiset.coe_eq_coe]
  apply Multiset.eq_of_le_of_card_le (draw_coe_le r xs.length t xs)
  simp [Multiset.coe_card, pyShuffle, draw_length]

-- ===== the scheduler (`scheduler.py`) =====

/-- `scheduler.py`, dataclass `SchedulerConfig`, with its default values. -/
structure SchedulerConfig where
  default_question_count : ℕ := 20
  default_time_minutes : ℕ := 60
  max_consecutive_same_tag : ℕ := 3
  keep_alive_quota : ℚ := 1/10
  consecutive_error_threshold : ℕ := 3
  min_weight : ℚ := 1/2
  max_weight : ℚ := 5
  deriving DecidableEq, Repr

/-- `Scheduler()` with no explicit config uses the defaults. -/
def defaultConfig : SchedulerConfig := {}

/-- `scheduler.py`, dataclass `DailyPlan` (`created_at` is a day stamp). -/
structure DailyPlan where
  questions : List Question
  estimated_time_minutes : ℕ
  focus_tags : List String
  created_at : ℤ
  deriving DecidableEq, Repr

/-- `scheduler.py`, dataclass `EmergencyDrill`. -/
structure EmergencyDrill where
  tag : String
  questions : List Question
  reason : String
  triggered_at : ℤ
  deriving DecidableEq, Repr

/-- The last-resort key of `Scheduler._get_passage_key`
(`question.content[:100] if question.content else None`). -/
def contentKey (q : Question) : Option String :=
  if q.content = "" then none else some (q.content.take 100)

/-- `Scheduler._get_passage_key`.  The `Question` dataclass has no
`stimulus` or `question_stem` attribute, so both `hasattr` guards of the
source are always false and those branches are dead; `passage_id`
truthiness makes both `None` and `0` fall through to the content key. -/
def get_passage_key (q : Question) : Option String :=
  if q.subcategory ≠ "RC" then none
  else
    match q.passage_id with
    | some pid => if pid = 0 then contentKey q else some ("p_" ++ toString pid)
    | none => contentKey q

/-- Insert into the Python dict `passage_groups`: append to the bucket of
an existing key, else add a new key at the end (dicts preserve insertion
order). -/
def addToGroups : List (String × List Question) → String → Question →
    List (String × List Question)
  | [], key, q => [(key, [q])]
  | (k, g) :: rest, key, q =>
      if k = key then (k, g ++ [q]) :: rest else (k, g) :: addToGroups rest key q

/-- The grouping loop of `_select_rc_by_passage`
(`key = self._get_passage_key(q) or str(q.id)`). -/
def passage_groups (rc : List Question) : List (String × List Question) :=
  rc.foldl (fun gs q => addToGroups gs ((get_passage_key q).getD (toString q.id)) q) []

/-- The accumulation loop of `_select_rc_by_passage`: before each group,
stop if the target is already met, else take the whole group. -/
def takeGroupsAux (target : ℕ) : List Question → List (List Question) → List Question
  | acc, [] => acc
  | acc, g :: rest =>
      if acc.length ≥ target then acc else takeGroupsAux target (acc ++ g) rest

/-- `Scheduler._select_rc_by_passage`. -/
def select_rc_by_passage (rc : List Question) (target : ℕ) (attempted : List ℕ) :
    List Question :=
  let groups := (passage_groups rc).map Prod.snd
  let unseen_passages := groups.filter (fun g => g.any (fun q => q.id ∉ attempted))
  let seen_passages := groups.filter (fun g => g.all (fun q => q.id ∈ attempted))
  takeGroupsAux target [] (unseen_passages ++ seen_passages)

/-- `Scheduler._get_attempted_ids` (a Python set used only for membership;
duplicates in the list are harmless). -/
def get_attempted_ids (db : Db) : List ℕ :=
  (get_study_logs db 10000).map (fun l => l.question_id)

/-- `max(...) if q.skill_tags else 1.0`: the maximum of the question's
tags' weakness weights (tags without a record count `1.0`), `1.0` for an
untagged question. -/
def max_tag_weight (ws : List UserWeakness) (q : Question) : ℚ :=
  match q.skill_tags.map (fun tg =>
      match find_weakness ws tg with | some w => w.weight | none => 1) with
  | [] => 1
  | w :: rest => rest.foldl max w

/-- The per-question weight of `_weighted_sample`: max of the question's
tags' weakness weights, times the difficulty boost
(`getattr(q, 'difficulty', 3) or 3` turns difficulty `0` into `3`). -/
def question_weight (ws : List UserWeakness) (q : Question) : ℚ :=
  let tag_weight : ℚ := max_tag_weight ws q
  let diff := if q.difficulty = 0 then 3 else q.difficulty
  let diff_boost : ℚ :=
    if tag_weight > 3/2 then (if diff = 2 then 13/10 else if diff = 3 then 1 else 7/10)
    else if tag_weight < 1 then (if diff = 4 then 13/10 else if diff = 3 then 1 else 7/10)
    else 1
  tag_weight * diff_boost

/-- `Scheduler._weighted_sample`.  The computed probabilities only shape
the sampling distribution; which index `random.choices` returns at each
step of the without-replacement loop is decided by the seed stream, and
the loop runs `min(count, len(available))` times, popping the chosen
element each time — exactly `draw`. -/
def weighted_sample (r : ℕ → ℕ) (t0 : ℕ) (ws : List UserWeakness)
    (questions : List Question) (count : ℕ) (exclude_ids : List ℕ) : List Question :=
  let available := questions.filter (fun q => q.id ∉ exclude_ids)
  if available = [] then []
  else
    let _weights := available.map (question_weight ws)
    draw r t0 available (min count available.length)

/-- In-place swap `xs[i], xs[j] = xs[j], xs[i]`. -/
def swapAt {α : Type} (xs : List α) (i j : ℕ) : List α :=
  match xs[i]?, xs[j]? with
  | some a, some b => (xs.set i b).set j a
  | _, _ => xs

/-- `common_tags = set(window[0].skill_tags); for q in window[1:]:
common_tags &= set(q.skill_tags)` (emptiness agrees with the set version). -/
def common_window_tags (w : List Question) : List String :=
  match w with
  | [] => []
  | q0 :: rest =>
      rest.foldl (fun acc q => acc.filter (fun tg => tg ∈ q.skill_tags)) q0.skill_tags

/-- The inner `for j in range(i + max_consecutive + 1, len(questions))`
search of `_shuffle_with_constraints`: first later index whose tags are
disjoint from the common tags. -/
def find_swap_idx (xs : List Question) (common : List String) (start : ℕ) : Option ℕ :=
  (List.range xs.length).find? (fun j =>
    decide (start ≤ j) &&
      match xs[j]? with
      | some q => !(q.skill_tags.any (fun tg => decide (tg ∈ common)))
      | none => false)

/-- One iteration of the constraint-enforcement loop of
`_shuffle_with_constraints`. -/
def constraint_step (mc : ℕ) (xs : List Question) (i : ℕ) : List Question :=
  let window := (xs.drop i).take (mc + 1)
  let common := common_window_tags window
  if common = [] then xs
  else
    match find_swap_idx xs common (i + mc + 1) with
    | some j => swapAt xs (i + mc) j
    | none => xs

/-- `Scheduler._shuffle_with_constraints`. -/
def shuffle_with_constraints (cfg : SchedulerConfig) (r : ℕ → ℕ) (t0 : ℕ)
    (qs : List Question) : List Question :=
  if qs.length ≤ 1 then qs
  else
    let shuffled := pyShuffle r t0 qs
    (List.range (shuffled.length - cfg.max_consecutive_same_tag)).foldl
      (constraint_step cfg.max_consecutive_same_tag) shuffled

/-- Stable insertion for `pySorted`: `x` goes before the first element not
strictly ahead of it, so elements comparing equal keep their original
order, as Python's stable `sorted` does. -/
def insertStable {α : Type} (lt : α → α → Bool) (x : α) : List α → List α
  | [] => [x]
  | y :: l => if lt y x then y :: insertStable lt x l else x :: y :: l

/-- Python's stable `sorted` with a strict "comes before" comparator. -/
def pySorted {α : Type} (lt : α → α → Bool) (l : List α) : List α :=
  l.foldr (insertStable lt) []

/-- `Scheduler._get_top_weakness_tags` (stable sort by weight,
descending). -/
def top_weakness_tags (ws : List UserWeakness) (n : ℕ) : List String :=
  ((pySorted (fun a b => decide (b.weight < a.weight)) ws).take n).map (fun w => w.tag)

/-- The attribute names defined on `DatabaseManager` in `database.py`. -/
def databaseManagerMethods : List String :=
  ["__init__", "_connect", "_create_tables", "add_question", "get_question",
   "get_questions_by_tags", "get_questions_by_subcategory", "get_all_questions",
   "get_unanswered_questions", "_row_to_question", "add_study_log",
   "get_study_logs", "get_logs_for_question", "get_recent_logs_by_tag",
   "_row_to_study_log", "_update_weakness", "_calculate_weight",
   "get_all_weaknesses", "get_weakness_by_tag", "get_stats",
   "get_question_counts_by_type", "export_logs_to_csv", "backup_database",
   "save_session", "load_session", "delete_session", "clear_session",
   "checkpoint", "close"]

/-- The skill-tag branch of `generate_daily_plan` calls
`self.db.get_questions_by_skill_tag(...)`, but `database.py` defines no
attribute of that name (see `databaseManagerMethods`), so Python's
attribute lookup fails: there is no implementation to embed, and the call
raises `AttributeError`. -/
def get_questions_by_skill_tag_attr :
    Option (Db → String → Option String → ℕ → List Question) := none

def attributeErrorMsg : String :=
  "AttributeError: 'DatabaseManager' object has no attribute 'get_questions_by_skill_tag'"

/-- The mixed-mode branch of `generate_daily_plan` (`elif rc_questions:`):
non-RC questions individually, then whole RC passage groups for the
remainder. -/
def select_mixed (r : ℕ → ℕ) (ws : List UserWeakness) (target_count : ℕ)
    (rc_questions non_rc_questions : List Question) (attempted_ids : List ℕ) :
    List Question :=
  let unseen_non_rc := non_rc_questions.filter (fun q => q.id ∉ attempted_ids)
  let seen_non_rc := non_rc_questions.filter (fun q => q.id ∈ attempted_ids)
  let non_rc_count := min target_count non_rc_questions.length
  let sel1 :=
    if unseen_non_rc.length ≥ non_rc_count then
      weighted_sample r 0 ws unseen_non_rc non_rc_count []
    else
      unseen_non_rc ++
        (if non_rc_count - unseen_non_rc.length > 0 then
          weighted_sample r 0 ws seen_non_rc (non_rc_count - unseen_non_rc.length)
            (unseen_non_rc.map (fun q => q.id))
         else [])
  let rc_remaining := target_count - sel1.length
  sel1 ++ (if rc_remaining > 0 then
    select_rc_by_passage rc_questions rc_remaining attempted_ids else [])

/-- The no-RC branch of `generate_daily_plan` (`else:` with the keep-alive
quota). -/
def select_norc (r : ℕ → ℕ) (ws : List UserWeakness)
    (target_count keep_alive_count : ℕ) (all_questions : List Question)
    (attempted_ids : List ℕ) : List Question :=
  let unseen := all_questions.filter (fun q => q.id ∉ attempted_ids)
  let seen := all_questions.filter (fun q => q.id ∈ attempted_ids)
  let mastered_tags :=
    (ws.filter (fun w => w.weight < 1 ∧ w.total_attempts ≥ 3)).map (fun w => w.tag)
  let keep_alive_questions :=
    if mastered_tags ≠ [] ∧ unseen ≠ [] then
      let keep_alive_candidates := unseen.filter
        (fun q => q.skill_tags ≠ [] ∧ q.skill_tags.any (fun tg => tg ∈ mastered_tags))
      if keep_alive_candidates ≠ [] then
        draw r 0 keep_alive_candidates
          (min keep_alive_count keep_alive_candidates.length)
      else []
    else []
  let selected_ids := keep_alive_questions.map (fun q => q.id)
  let main_count := target_count - keep_alive_questions.length
  let main_unseen := unseen.filter (fun q => q.id ∉ selected_ids)
  if main_unseen.length ≥ main_count then
    keep_alive_questions ++ weighted_sample r 1000 ws main_unseen main_count selected_ids
  else
    keep_alive_questions ++ main_unseen ++
      (if main_count - main_unseen.length > 0 then
        weighted_sample r 1000 ws seen (main_count - main_unseen.length)
          (selected_ids ++ main_unseen.map (fun q => q.id))
       else [])

/-- `target_count = question_count or self.config.default_question_count`
(`some 0` and `none` are both falsy and fall back to the default). -/
def target_of (cfg : SchedulerConfig) (question_count : Option ℕ) : ℕ :=
  match question_count with
  | some n => if n = 0 then cfg.default_question_count else n
  | none => cfg.default_question_count

/-- The body of `generate_daily_plan` once the candidate pool has been
resolved: empty-pool early return, branch selection, constrained shuffle,
and plan assembly. -/
def plan_from_pool (db : Db) (cfg : SchedulerConfig) (r : ℕ → ℕ)
    (target_count : ℕ) (all_questions : List Question) (now : ℤ) : DailyPlan :=
  let ws := get_all_weaknesses db
  if all_questions = [] then
    { questions := [], estimated_time_minutes := 0, focus_tags := [],
      created_at := now }
  else
    let keep_alive_count := max 1 (Int.toNat ⌊(target_count : ℚ) * cfg.keep_alive_quota⌋)
    let attempted_ids := get_attempted_ids db
    let rc_questions := all_questions.filter (fun q => q.subcategory = "RC")
    let non_rc_questions := all_questions.filter (fun q => q.subcategory ≠ "RC")
    let selected_questions :=
      if rc_questions ≠ [] ∧ non_rc_questions = [] then
        select_rc_by_passage rc_questions target_count attempted_ids
      else if rc_questions ≠ [] then
        select_mixed r ws target_count rc_questions non_rc_questions attempted_ids
      else
        select_norc r ws target_count keep_alive_count all_questions attempted_ids
    let shuffled := shuffle_with_constraints cfg r 2000 selected_questions
    { questions := shuffled,
      estimated_time_minutes := shuffled.length * 2,
      focus_tags := top_weakness_tags ws 3,
      created_at := now }

/-- Pool resolution of `generate_daily_plan` when no skill tag is given. -/
def candidate_pool (db : Db) (sub : Option String) : List Question :=
  match sub with
  | some s => (get_all_questions db).filter (fun q => q.subcategory = s)
  | none => get_all_questions db

/-- `Scheduler.generate_daily_plan`.  `time_minutes` is unused in the
source and omitted.  The source computes `keep_alive_count` once before
branching and recomputes the same value inside the no-RC branch; the
single computation in `plan_from_pool` is that value. -/
def generate_daily_plan (db : Db) (cfg : SchedulerConfig) (r : ℕ → ℕ)
    (question_count : Option ℕ) (subcategory : Option String)
    (skill_tag : Option String) (now : ℤ) : Except String DailyPlan :=
  let target_count : ℕ := target_of cfg question_count
  let poolE : Except String (List Question) :=
    match skill_tag with
    | some tg =>
        match get_questions_by_skill_tag_attr with
        | some f => .ok (f db tg subcategory 500)
        | none => .error attributeErrorMsg
    | none => .ok (candidate_pool db subcategory)
  match poolE with
  | .error e => .error e
  | .ok all_questions => .ok (plan_from_pool db cfg r target_count all_questions now)

-- ===== session monitor (`record_answer` / emergency drill) =====

/-- `DatabaseManager.get_recent_logs_by_tag`: logs joined to a question
carrying the tag, newer than `now - days` (LIKE abstracted to
membership as in `get_questions_by_tags`; most-recent-first order is the
list order). -/
def get_recent_logs_by_tag (db : Db) (tag : String) (days : ℤ) (now : ℤ) :
    List StudyLog :=
  db.study_logs.filter (fun l =>
    (match get_question db l.question_id with
     | some q => decide (tag ∈ q.skill_tags)
     | none => false) && decide (l.timestamp > now - days))

/-- `Scheduler._create_emergency_drill`. -/
def create_emergency_drill (db : Db) (tag : String) (now : ℤ) : EmergencyDrill :=
  let all_questions := get_questions_by_tags db [tag] 10
  let recent_question_ids := (get_recent_logs_by_tag db tag 7 now).map (fun l => l.question_id)
  let non_recent := all_questions.filter (fun q => q.id ∉ recent_question_ids)
  let recent := all_questions.filter (fun q => q.id ∈ recent_question_ids)
  let drill_questions :=
    if non_recent.length ≥ 5 then non_recent.take 5
    else non_recent ++ recent.take (5 - non_recent.length)
  { tag := tag, questions := drill_questions,
    reason := "Consecutive errors detected in '" ++ tag ++ "' questions",
    triggered_at := now }

/-- Write one entry of the `_current_session_errors` dict
(missing keys read as `0`, matching `dict.get(tag, 0)`). -/
def updateCounter (st : String → ℕ) (k : String) (v : ℕ) : String → ℕ :=
  fun t => if t = k then v else st t

/-- The `for tag in question.skill_tags` loop of `Scheduler.record_answer`:
threads the session-error counters, returns early with a drill when a
counter reaches the threshold. -/
def record_answer_loop (cfg : SchedulerConfig) (db : Db) (now : ℤ) (is_correct : Bool) :
    List String → (String → ℕ) → ((String → ℕ) × Option EmergencyDrill)
  | [], st => (st, none)
  | tag :: rest, st =>
    if is_correct then
      record_answer_loop cfg db now is_correct rest (updateCounter st tag 0)
    else
      let c := st tag + 1
      let st1 := updateCounter st tag c
      if c ≥ cfg.consecutive_error_threshold then
        (updateCounter st1 tag 0, some (create_emergency_drill db tag now))
      else
        record_answer_loop cfg db now is_correct rest st1

/-- `Scheduler.record_answer`: new session-error counters, plus the
triggered drill if any. -/
def record_answer (cfg : SchedulerConfig) (db : Db) (now : ℤ) (q : Question)
    (is_correct : Bool) (st : String → ℕ) : ((String → ℕ) × Option EmergencyDrill) :=
  record_answer_loop cfg db now is_correct q.skill_tags st

-- ===== store mutation (`add_study_log` and the weakness upsert) =====

/-- `DatabaseManager._update_weakness` as a transformation of the store:
upsert of the row keyed by `tag` (the table's primary key). -/
def update_weakness_db (db : Db) (tag : String) (is_error : Bool) (now : ℤ) : Db :=
  { db with weaknesses :=
      match find_weakness db.weaknesses tag with
      | some _ => db.weaknesses.map (fun w =>
          if w.tag = tag then update_weakness tag (some w) is_error now else w)
      | none => db.weaknesses ++ [update_weakness tag none is_error now] }

/-- `DatabaseManager.add_study_log`: insert the log (newest first, rowid
is the running count), then — unless the question id resolves to nothing —
update the weakness record of every tag of the answered question.
Returns the new store and `cursor.lastrowid`. -/
def add_study_log (db : Db) (log : StudyLog) (now : ℤ) : Db × ℕ :=
  let rowid := db.study_logs.length + 1
  let db1 : Db := { db with study_logs := log :: db.study_logs }
  match get_question db1 log.question_id with
  | some q =>
      (q.skill_tags.foldl (fun d tg => update_weakness_db d tg (!log.is_correct) now) db1,
       rowid)
  | none => (db1, rowid)

-- ===== the constrained shuffle permutes its input =====

theorem cons_set_perm {α : Type} :
    ∀ (t : List α) (j : ℕ) (x b : α), t[j]? = some b → (b :: t.set j x).Perm (x :: t)
  | [], j, x, b, h => by simp at h
  | c :: t, 0, x, b, h => by
      have hb : b = c := by simpa using h.symm
      subst hb
      exact List.Perm.swap x b t
  | c :: t, j+1, x, b, h => by
      have h' : t[j]? = some b := by simpa using h
      have ih := cons_set_perm t j x b h'
      calc b :: (c :: t).set (j+1) x = b :: c :: t.set j x := by simp
        _ ~ c :: b :: t.set j x := List.Perm.swap c b _
        _ ~ c :: (x :: t) := ih.cons c
        _ ~ x :: c :: t := List.Perm.swap x c t

theorem set_set_perm {α : Type} :
    ∀ (xs : List α) (i j : ℕ) (a b : α), xs[i]? = some a → xs[j]? = some b →
      (((xs.set i b).set j a)).Perm xs
  | [], i, j, a, b, hi, _ => by simp at hi
  | x :: t, 0, 0, a, b, hi, hj => by
      have ha : a = x := by simpa using hi.symm
      simp [ha]
  | x :: t, 0, j+1, a, b, hi, hj => by
      have ha : a = x := by simpa using hi.symm
      have hj' : t[j]? = some b := by simpa using hj
      subst ha
      calc ((a :: t).set 0 b).set (j+1) a = b :: t.set j a := by simp
        _ ~ a :: t := cons_set_perm t j a b hj'
  | x :: t, i+1, 0, a, b, hi, hj => by
      have hb : b = x := by simpa using hj.symm
      have hi' : t[i]? = some a := by simpa using hi
      subst hb
      calc ((b :: t).set (i+1) b).set 0 a = a :: t.set i b := by simp
        _ ~ b :: t := cons_set_perm t i b a hi'
  | x :: t, i+1, j+1, a, b, hi, hj => by
      have hi' : t[i]? = some a := by simpa using hi
      have hj' : t[j]? = some b := by simpa using hj
      have ih := set_set_perm t i j a b hi' hj'
      calc ((x :: t).set (i+1) b).set (j+1) a = x :: (t.set i b).set j a := by simp
        _ ~ x :: t := ih.cons x

theorem swapAt_perm {α : Type} (xs : List α) (i j : ℕ) : (swapAt xs i j).Perm xs := by
  unfold swapAt
  rcases hi : xs[i]? with _ | a <;> rcases hj : xs[j]? with _ | b <;>
    simp only [hi, hj]
  · exact List.Perm.refl xs
  · exact List.Perm.refl xs
  · exact List.Perm.refl xs
  · exact set_set_perm xs i j a b hi hj

theorem constraint_step_perm (mc : ℕ) (xs : List Question) (i : ℕ) :
    (constraint_step mc xs i).Perm xs := by
  simp only [constraint_step]
  split
  · exact List.Perm.refl xs
  · split
    · exact swapAt_perm xs (i + mc) _
    · exact List.Perm.refl xs

theorem foldl_constraint_perm (mc : ℕ) :
    ∀ (is : List ℕ) (xs : List Question), (is.foldl (constraint_step mc) xs).Perm xs := by
  intro is
  induction is with
  | nil => intro xs; exact List.Perm.refl xs
  | cons i rest ih =>
      intro xs
      calc (rest.foldl (constraint_step mc) (constraint_step mc xs i)).Perm
            (constraint_step mc xs i) := ih _
        _ ~ xs := constraint_step_perm mc xs i

theorem shuffle_with_constraints_perm (cfg : SchedulerConfig) (r : ℕ → ℕ) (t0 : ℕ)
    (qs : List Question) : (shuffle_with_constraints cfg r t0 qs).Perm qs := by
  unfold shuffle_with_constraints
  split
  · exact List.Perm.refl qs
  · calc ((List.range ((pyShuffle r t0 qs).length - cfg.max_consecutive_same_tag)).foldl
          (constraint_step cfg.max_consecutive_same_tag) (pyShuffle r t0 qs)).Perm
            (pyShuffle r t0 qs) := foldl_constraint_perm _ _ _
      _ ~ qs := pyShuffle_perm r t0 qs

-- ===== every selection stage picks a sub-multiset of its pool =====

theorem coe_filter_le {α : Type} (p : α → Bool) (l : List α) :
    ((l.filter p : List α) : Multiset α) ≤ ↑l :=
  Multiset.coe_le.mpr (List.filter_sublist l).subperm

theorem coe_append_eq {α : Type} (l₁ l₂ : List α) :
    ((l₁ ++ l₂ : List α) : Multiset α) = ↑l₁ + ↑l₂ := by
  rw [← Multiset.coe_add]

theorem coe_filter_add_filter_not {α : Type} (p : α → Bool) (l : List α) :
    ((l.filter p : List α) : Multiset α) + ↑(l.filter (fun a => !(p a))) = ↑l := by
  rw [← coe_append_eq]
  exact Multiset.coe_eq_coe.mpr (List.filter_append_perm p l)

theorem weighted_sample_coe_le (r : ℕ → ℕ) (t0 : ℕ) (ws : List UserWeakness)
    (qs : List Question) (count : ℕ) (excl : List ℕ) :
    ((weighted_sample r t0 ws qs count excl : List Question) : Multiset Question) ≤ ↑qs := by
  simp only [weighted_sample]
  split
  · simp
  · exact le_trans (draw_coe_le r _ t0 _) (coe_filter_le _ qs)

theorem weighted_sample_length (r : ℕ → ℕ) (t0 : ℕ) (ws : List UserWeakness)
    (qs : List Question) (count : ℕ) (excl : List ℕ) :
    (weighted_sample r t0 ws qs count excl).length =
      min count (qs.filter (fun q => q.id ∉ excl)).length := by
  simp only [weighted_sample]
  split
  · next h => rw [h]; simp
  · rw [draw_length, min_assoc, min_self]

theorem addToGroups_flatten (k : String) (q : Question) :
    ∀ (gs : List (String × List Question)),
      ((((addToGroups gs k q).map Prod.snd).flatten : List Question) : Multiset Question) =
        ↑((gs.map Prod.snd).flatten) + {q} := by
  intro gs
  induction gs with
  | nil => simp [addToGroups]
  | cons hd rest ih =>
      obtain ⟨k', g⟩ := hd
      by_cases hk : k' = k
      · simp only [addToGroups, if_pos hk, List.map_cons, List.flatten_cons, coe_append_eq]
        simp [Multiset.coe_singleton, add_comm, add_assoc, add_left_comm]
      · simp only [addToGroups, if_neg hk, List.map_cons, List.flatten_cons, coe_append_eq]
        rw [ih, add_assoc]

theorem passage_groups_flatten_aux :
    ∀ (rc : List Question) (gs : List (String × List Question)),
      ((((rc.foldl (fun acc x =>
            addToGroups acc ((get_passage_key x).getD (toString x.id)) x) gs).map
          Prod.snd).flatten : List Question) : Multiset Question) =
        ↑((gs.map Prod.snd).flatten) + ↑rc := by
  intro rc
  induction rc with
  | nil => intro gs; simp
  | cons x rest ih =>
      intro gs
      simp only [List.foldl_cons]
      rw [ih, addToGroups_flatten]
      have : ((x :: rest : List Question) : Multiset Question) = x ::ₘ ↑rest := rfl
      rw [this]
      simp [Multiset.singleton_add, add_comm, add_assoc, add_left_comm]

theorem passage_groups_flatten (rc : List Question) :
    ((((passage_groups rc).map Prod.snd).flatten : List Question) : Multiset Question) = ↑rc := by
  simpa [passage_groups] using passage_groups_flatten_aux rc []

theorem takeGroupsAux_coe_le (target : ℕ) :
    ∀ (gs : List (List Question)) (acc : List Question),
      ((takeGroupsAux target acc gs : List Question) : Multiset Question) ≤
        ↑acc + ↑gs.flatten := by
  intro gs
  induction gs with
  | nil => intro acc; simp [takeGroupsAux]
  | cons g rest ih =>
      intro acc
      unfold takeGroupsAux
      split
      · exact le_add_right le_rfl
      · calc ((takeGroupsAux target (acc ++ g) rest : List Question) : Multiset Question)
            ≤ ↑(acc ++ g) + ↑rest.flatten := ih (acc ++ g)
          _ = ↑acc + (↑g + ↑rest.flatten) := by rw [coe_append_eq, add_assoc]
          _ = ↑acc + ↑(g :: rest).flatten := by rw [List.flatten_cons, coe_append_eq]

theorem unseen_seen_groups_perm (att : List ℕ) (groups : List (List Question)) :
    ((groups.filter (fun g => g.any (fun q => q.id ∉ att)) ++
      groups.filter (fun g => g.all (fun q => q.id ∈ att))).Perm groups) := by
  have hcongr : groups.filter (fun g => g.all (fun q => q.id ∈ att)) =
      groups.filter (fun g => !(g.any (fun q => q.id ∉ att))) := by
    apply List.filter_congr
    intro g _
    simp [List.all_eq_not_any_not]
  rw [hcongr]
  exact List.filter_append_perm _ groups

theorem select_rc_coe_le (rc : List Question) (target : ℕ) (att : List ℕ) :
    ((select_rc_by_passage rc target att : List Question) : Multiset Question) ≤ ↑rc := by
  simp only [select_rc_by_passage]
  refine le_trans (takeGroupsAux_coe_le target _ []) ?_
  have hperm := (unseen_seen_groups_perm att ((passage_groups rc).map Prod.snd)).flatten
  calc (([] : List Question) : Multiset Question) +
        ↑(((passage_groups rc).map Prod.snd).filter (fun g => g.any (fun q => q.id ∉ att)) ++
          ((passage_groups rc).map Prod.snd).filter (fun g => g.all (fun q => q.id ∈ att))).flatten
      = ↑((((passage_groups rc).map Prod.snd)).flatten : List Question) := by
        rw [Multiset.coe_eq_coe.mpr hperm]; simp
    _ = ↑rc := passage_groups_flatten rc
    _ ≤ ↑rc := le_rfl

/-- The unseen/seen split of a pool is a partition (as multisets). -/
theorem coe_unseen_seen (l : List Question) (att : List ℕ) :
    ((l.filter (fun q => q.id ∉ att) : List Question) : Multiset Question) +
      ↑(l.filter (fun q => q.id ∈ att)) = ↑l := by
  have h1 : l.filter (fun q => q.id ∉ att) =
      l.filter (fun q => !(decide (q.id ∈ att))) := by
    apply List.filter_congr
    intro q _
    simp [decide_not]
  rw [h1, add_comm]
  exact coe_filter_add_filter_not (fun q => decide (q.id ∈ att)) l

/-- A sub-multiset all of whose members satisfy `p` is a sub-multiset of
the `p`-filtered list. -/
theorem coe_le_filter_of_all {ka pool : List Question} (p : Question → Bool)
    (hle : ((ka : List Question) : Multiset Question) ≤ ↑pool)
    (hall : ∀ q ∈ ka, p q = true) :
    ((ka : List Question) : Multiset Question) ≤ ↑(pool.filter p) := by
  have h : ((ka : List Question) : Multiset Question) ≤
      Multiset.filter (fun a => p a = true) ↑pool :=
    Multiset.le_filter.mpr ⟨hle, fun a ha => hall a (by exact_mod_cast ha)⟩
  have h2 : Multiset.filter (fun a => p a = true) (↑pool : Multiset Question) =
      ↑(pool.filter p) := by
    simp
  rwa [h2] at h

theorem if_select_rc_coe_le (c : Prop) [Decidable c] (rc : List Question) (k : ℕ)
    (att : List ℕ) :
    (((if c then select_rc_by_passage rc k att else []) :
        List Question) : Multiset Question) ≤ ↑rc := by
  split
  · exact select_rc_coe_le rc k att
  · simp

theorem if_weighted_sample_coe_le (c : Prop) [Decidable c] (r : ℕ → ℕ) (t0 : ℕ)
    (ws : List UserWeakness) (qs : List Question) (count : ℕ) (excl : List ℕ) :
    (((if c then weighted_sample r t0 ws qs count excl else []) :
        List Question) : Multiset Question) ≤ ↑qs := by
  split
  · exact weighted_sample_coe_le r t0 ws qs count excl
  · simp

theorem select_mixed_coe_le (r : ℕ → ℕ) (ws : List UserWeakness) (target : ℕ)
    (rc nonrc : List Question) (att : List ℕ) :
    ((select_mixed r ws target rc nonrc att : List Question) : Multiset Question) ≤
      ↑nonrc + ↑rc := by
  simp only [select_mixed]
  rw [coe_append_eq]
  apply add_le_add
  · -- the non-RC part is a sub-multiset of the non-RC pool
    split
    · exact le_trans (weighted_sample_coe_le r 0 ws _ _ []) (coe_filter_le _ nonrc)
    · rw [coe_append_eq, ← coe_unseen_seen nonrc att]
      exact add_le_add le_rfl (if_weighted_sample_coe_le _ r 0 ws _ _ _)
  · exact if_select_rc_coe_le _ rc _ att

theorem select_norc_coe_le (r : ℕ → ℕ) (ws : List UserWeakness)
    (target kac : ℕ) (pool : List Question) (att : List ℕ) :
    ((select_norc r ws target kac pool att : List Question) : Multiset Question) ≤
      ↑pool := by
  simp only [select_norc]
  set unseen := pool.filter (fun q => q.id ∉ att) with hunseen
  set seen := pool.filter (fun q => q.id ∈ att) with hseen
  set mastered := (ws.filter (fun w => w.weight < 1 ∧ w.total_attempts ≥ 3)).map
    (fun w => w.tag) with hmastered
  set ka := (if mastered ≠ [] ∧ unseen ≠ [] then
      (if unseen.filter
          (fun q => q.skill_tags ≠ [] ∧ q.skill_tags.any (fun tg => tg ∈ mastered)) ≠ [] then
        draw r 0 (unseen.filter
          (fun q => q.skill_tags ≠ [] ∧ q.skill_tags.any (fun tg => tg ∈ mastered)))
          (min kac (unseen.filter
            (fun q => q.skill_tags ≠ [] ∧ q.skill_tags.any (fun tg => tg ∈ mastered))).length)
      else [])
    else []) with hka
  have hka_le : ((ka : List Question) : Multiset Question) ≤ ↑unseen := by
    rw [hka]
    split
    · split
      · exact le_trans (draw_coe_le r _ 0 _) (coe_filter_le _ unseen)
      · simp
    · simp
  have hka_ids : ∀ q ∈ ka, decide (q.id ∈ ka.map (fun x => x.id)) = true := by
    intro q hq
    simp only [decide_eq_true_eq]
    exact List.mem_map_of_mem _ hq
  have hka_filter : ((ka : List Question) : Multiset Question) ≤
      ↑(unseen.filter (fun q => q.id ∈ ka.map (fun x => x.id))) :=
    coe_le_filter_of_all _ hka_le hka_ids
  have hsplit : ((unseen.filter (fun q => q.id ∉ ka.map (fun x => x.id)) :
        List Question) : Multiset Question) +
      ↑(unseen.filter (fun q => q.id ∈ ka.map (fun x => x.id))) = ↑unseen :=
    coe_unseen_seen unseen _
  have hpool : ((unseen : List Question) : Multiset Question) + ↑seen = ↑pool :=
    coe_unseen_seen pool att
  split
  · -- enough unseen: keep-alive ++ weighted sample from the remaining unseen
    rw [coe_append_eq]
    calc ((ka : List Question) : Multiset Question) +
          ↑(weighted_sample r 1000 ws (unseen.filter
              (fun q => q.id ∉ ka.map (fun x => x.id))) (target - ka.length)
              (ka.map (fun x => x.id)))
        ≤ ↑(unseen.filter (fun q => q.id ∈ ka.map (fun x => x.id))) +
            ↑(unseen.filter (fun q => q.id ∉ ka.map (fun x => x.id))) :=
          add_le_add hka_filter (weighted_sample_coe_le r 1000 ws _ _ _)
      _ = ↑unseen := by rw [add_comm]; exact hsplit
      _ ≤ ↑pool := le_trans (le_add_right le_rfl) (le_of_eq hpool)
  · -- not enough unseen: keep-alive ++ all remaining unseen ++ sample from seen
    rw [coe_append_eq, coe_append_eq]
    have hif : (((if target - ka.length -
            (unseen.filter (fun q => q.id ∉ ka.map (fun x => x.id))).length > 0 then
          weighted_sample r 1000 ws seen
            (target - ka.length -
              (unseen.filter (fun q => q.id ∉ ka.map (fun x => x.id))).length)
            (ka.map (fun x => x.id) ++
              (unseen.filter (fun q => q.id ∉ ka.map (fun x => x.id))).map (fun x => x.id))
        else []) : List Question) : Multiset Question) ≤ ↑seen := by
      split
      · exact weighted_sample_coe_le r 1000 ws _ _ _
      · simp
    refine le_trans (add_le_add (add_le_add hka_filter le_rfl) hif) (le_of_eq ?_)
    rw [add_comm (↑(unseen.filter (fun q => q.id ∈ ka.map (fun x => x.id))))
      ((↑(unseen.filter (fun q => q.id ∉ ka.map (fun x => x.id))) : Multiset Question)),
      hsplit, hpool]

/-- The RC / non-RC split of a pool is a partition (as multisets). -/
theorem coe_rc_nonrc (pool : List Question) :
    ((pool.filter (fun q => q.subcategory ≠ "RC") : List Question) : Multiset Question) +
      ↑(pool.filter (fun q => q.subcategory = "RC")) = ↑pool := by
  have h1 : pool.filter (fun q => q.subcategory ≠ "RC") =
      pool.filter (fun q => !(decide (q.subcategory = "RC"))) := by
    apply List.filter_congr
    intro q _
    simp [decide_not]
  rw [h1, add_comm]
  exact coe_filter_add_filter_not (fun q => decide (q.subcategory = "RC")) pool

/-- Whatever the seeds and branch, a generated plan's questions form a
sub-multiset of the candidate pool. -/
theorem plan_from_pool_questions_le (db : Db) (cfg : SchedulerConfig) (r : ℕ → ℕ)
    (target : ℕ) (pool : List Question) (now : ℤ) :
    (((plan_from_pool db cfg r target pool now).questions : List Question) :
        Multiset Question) ≤ ↑pool := by
  simp only [plan_from_pool]
  split
  · simp
  · rw [Multiset.coe_eq_coe.mpr (shuffle_with_constraints_perm cfg r 2000 _)]
    split
    · exact le_trans (select_rc_coe_le _ _ _) (coe_filter_le _ pool)
    · split
      · exact le_trans (select_mixed_coe_le r _ _ _ _ _) (le_of_eq (coe_rc_nonrc pool))
      · exact select_norc_coe_le r _ _ _ pool _

theorem generate_none_eq (db : Db) (cfg : SchedulerConfig) (r : ℕ → ℕ)
    (qc : Option ℕ) (sub : Option String) (now : ℤ) :
    generate_daily_plan db cfg r qc sub none now =
      .ok (plan_from_pool db cfg r (target_of cfg qc) (candidate_pool db sub) now) := rfl

theorem generate_skill_tag_eq (db : Db) (cfg : SchedulerConfig) (r : ℕ → ℕ)
    (qc : Option ℕ) (sub : Option String) (tg : String) (now : ℤ) :
    generate_daily_plan db cfg r qc sub (some tg) now = .error attributeErrorMsg := rfl

-- ===== claims about the daily-plan generator =====

/-- C6: every successfully generated daily plan — any filters, any target
count, any random outcome — contains no duplicate question ids, provided
the stored questions have distinct ids (`id` is the table's primary key). -/
theorem C6_plan_has_no_duplicate_ids (db : Db) (cfg : SchedulerConfig) (r : ℕ → ℕ)
    (qc : Option ℕ) (sub skill_tag : Option String) (now : ℤ) (plan : DailyPlan)
    (hids : (db.questions.map (fun q => q.id)).Nodup)
    (hok : generate_daily_plan db cfg r qc sub skill_tag now = .ok plan) :
    (plan.questions.map (fun q => q.id)).Nodup := by
  cases skill_tag with
  | some tg =>
      rw [generate_skill_tag_eq] at hok
      exact Except.noConfusion hok
  | none =>
      rw [generate_none_eq] at hok
      have hplan : plan_from_pool db cfg r (target_of cfg qc) (candidate_pool db sub) now
          = plan := by
        injection hok
      have hle := plan_from_pool_questions_le db cfg r (target_of cfg qc)
        (candidate_pool db sub) now
      rw [hplan] at hle
      have hpool_le : ((candidate_pool db sub : List Question) : Multiset Question) ≤
          ↑db.questions := by
        cases sub with
        | some s => exact coe_filter_le _ _
        | none => exact le_rfl
      have hle2 := le_trans hle hpool_le
      have hmap := Multiset.map_le_map (f := fun q : Question => q.id) hle2
      rw [Multiset.map_coe, Multiset.map_coe] at hmap
      exact Multiset.coe_nodup.mp
        (Multiset.nodup_of_le hmap (Multiset.coe_nodup.mpr hids))

/-- Concrete two-question store for evaluating the plan generator. -/
def qA : Question :=
  { id := 1, passage_id := none, category := "Verbal", subcategory := "CR",
    content := "a", options := ["A", "B", "C", "D", "E"], correct_answer := 0,
    skill_tags := ["tagA"], difficulty := 3 }

def qB : Question :=
  { id := 2, passage_id := none, category := "Verbal", subcategory := "CR",
    content := "b", options := ["A", "B", "C", "D", "E"], correct_answer := 1,
    skill_tags := ["tagB"], difficulty := 3 }

def db6 : Db := { questions := [qA, qB], study_logs := [], weaknesses := [] }

def rng0 : ℕ → ℕ := fun _ => 0

def plan6 : DailyPlan :=
  { questions := [qA, qB], estimated_time_minutes := 4, focus_tags := [],
    created_at := 0 }

/-- C6 witness: a concrete two-question store, target 2, constant seeds. -/
theorem C6_witness :
    (db6.questions.map (fun q => q.id)).Nodup ∧
    (plan6.questions.map (fun q => q.id)).Nodup :=
  ⟨by decide,
    C6_plan_has_no_duplicate_ids db6 defaultConfig rng0 (some 2) none none 0 plan6
      (by decide) (by rfl)⟩

/-- C2: supplying a skill-tag filter always fails — `database.py` defines
no `get_questions_by_skill_tag` attribute, so the branch raises
`AttributeError` instead of resolving the pool and returning a plan. -/
theorem C2_skill_tag_filter_always_raises :
    "get_questions_by_skill_tag" ∉ databaseManagerMethods ∧
    ∀ (db : Db) (cfg : SchedulerConfig) (r : ℕ → ℕ) (qc : Option ℕ)
      (sub : Option String) (tg : String) (now : ℤ),
      generate_daily_plan db cfg r qc sub (some tg) now = .error attributeErrorMsg := by
  exact ⟨by decide, fun db cfg r qc sub tg now => generate_skill_tag_eq db cfg r qc sub tg now⟩

-- ===== claims about `add_study_log` (frame effects) =====

/-- The weakness-table upsert of `_update_weakness`, at the list level. -/
def upsert_weakness (ws : List UserWeakness) (tag : String) (is_error : Bool)
    (now : ℤ) : List UserWeakness :=
  match find_weakness ws tag with
  | some _ => ws.map (fun w =>
      if w.tag = tag then update_weakness tag (some w) is_error now else w)
  | none => ws ++ [update_weakness tag none is_error now]

theorem update_weakness_db_eq (db : Db) (tag : String) (is_error : Bool) (now : ℤ) :
    update_weakness_db db tag is_error now =
      { db with weaknesses := upsert_weakness db.weaknesses tag is_error now } := rfl

theorem foldl_update_weakness_db (e : Bool) (now : ℤ) :
    ∀ (tags : List String) (d : Db),
      tags.foldl (fun d tg => update_weakness_db d tg e now) d =
        { d with weaknesses :=
            tags.foldl (fun ws tg => upsert_weakness ws tg e now) d.weaknesses } := by
  intro tags
  induction tags with
  | nil => intro d; rfl
  | cons t ts ih =>
      intro d
      simp only [List.foldl_cons]
      rw [ih]
      rfl

/-- C8 counterexample inputs: one tagged question, empty weakness table. -/
def qC8 : Question :=
  { id := 1, passage_id := none, category := "Verbal", subcategory := "CR",
    content := "c", options := ["A", "B", "C", "D", "E"], correct_answer := 0,
    skill_tags := ["X"], difficulty := 3 }

def dbC8 : Db := { questions := [qC8], study_logs := [], weaknesses := [] }

def logC8 : StudyLog :=
  { id := 0, question_id := 1, user_answer := 1, is_correct := false,
    time_taken := 30, timestamp := 0 }

/-- C8 counterexample: appending a study log for a tagged question mutates
the weakness table (creates the tag's record), so the append is not free
of store-side side effects. -/
theorem C8_counterexample_append_mutates_weaknesses :
    ((add_study_log dbC8 logC8 0).1).weaknesses =
      [{ tag := "X", error_count := 1, total_attempts := 1, last_seen := 0,
         weight := 2 }] ∧
    dbC8.weaknesses = [] := ⟨rfl, rfl⟩

/-- C8 amended: `add_study_log` appends the record, returns the new row
id, leaves the questions table unchanged — and, as a side effect, applies
the weakness upsert for every skill tag of the answered question; the
weakness table is unchanged only when the logged question id resolves to
no stored question. -/
theorem C8_append_effects (db : Db) (log : StudyLog) (now : ℤ) :
    ((add_study_log db log now).1).questions = db.questions ∧
    ((add_study_log db log now).1).study_logs = log :: db.study_logs ∧
    (add_study_log db log now).2 = db.study_logs.length + 1 ∧
    (get_question db log.question_id = none →
      ((add_study_log db log now).1).weaknesses = db.weaknesses) ∧
    (∀ q, get_question db log.question_id = some q →
      ((add_study_log db log now).1).weaknesses =
        q.skill_tags.foldl
          (fun ws tg => upsert_weakness ws tg (!log.is_correct) now)
          db.weaknesses) := by
  have hq : get_question { db with study_logs := log :: db.study_logs }
      log.question_id = get_question db log.question_id := rfl
  simp only [add_study_log, hq]
  cases hfind : get_question db log.question_id with
  | none => exact ⟨rfl, rfl, rfl, fun _ => rfl, fun q hcontra => by simp_all⟩
  | some q0 =>
      dsimp only
      rw [foldl_update_weakness_db]
      refine ⟨rfl, rfl, rfl, fun hcontra => by simp_all, fun q hsome => ?_⟩
      have : q0 = q := Option.some.inj hsome
      rw [this]

/-- C8 witness: the amended description evaluated on the concrete inputs. -/
theorem C8_witness :
    ((add_study_log dbC8 logC8 0).1).weaknesses =
      qC8.skill_tags.foldl
        (fun ws tg => upsert_weakness ws tg (!logC8.is_correct) 0)
        dbC8.weaknesses :=
  (C8_append_effects dbC8 logC8 0).2.2.2.2 qC8 (by rfl)

-- ===== claims about the session monitor =====

theorem record_loop_correct (cfg : SchedulerConfig) (db : Db) (now : ℤ) :
    ∀ (l : List String) (st : String → ℕ),
      (record_answer_loop cfg db now true l st).2 = none ∧
      ∀ tg, (record_answer_loop cfg db now true l st).1 tg =
        if tg ∈ l then 0 else st tg := by
  intro l
  induction l with
  | nil =>
      intro st
      exact ⟨rfl, fun tg => by simp [record_answer_loop]⟩
  | cons t ts ih =>
      intro st
      have hstep : record_answer_loop cfg db now true (t :: ts) st =
          record_answer_loop cfg db now true ts (updateCounter st t 0) := by
        simp [record_answer_loop]
      rw [hstep]
      refine ⟨(ih (updateCounter st t 0)).1, fun tg => ?_⟩
      rw [(ih (updateCounter st t 0)).2 tg]
      by_cases hmem : tg ∈ ts
      · simp [hmem]
      · by_cases heq : tg = t
        · simp [hmem, heq, updateCounter]
        · simp [hmem, heq, updateCounter]

theorem record_loop_incorrect_below (cfg : SchedulerConfig) (db : Db) (now : ℤ) :
    ∀ (l : List String) (st : String → ℕ), l.Nodup →
      (∀ tg ∈ l, st tg + 1 < cfg.consecutive_error_threshold) →
      (record_answer_loop cfg db now false l st).2 = none ∧
      ∀ tg, (record_answer_loop cfg db now false l st).1 tg =
        if tg ∈ l then st tg + 1 else st tg := by
  intro l
  induction l with
  | nil =>
      intro st _ _
      exact ⟨rfl, fun tg => by simp [record_answer_loop]⟩
  | cons t ts ih =>
      intro st hnd hbelow
      have hthr : ¬ (st t + 1 ≥ cfg.consecutive_error_threshold) := by
        have := hbelow t (List.mem_cons_self t ts)
        omega
      have hstep : record_answer_loop cfg db now false (t :: ts) st =
          record_answer_loop cfg db now false ts (updateCounter st t (st t + 1)) := by
        simp [record_answer_loop, hthr]
      have htnotts : t ∉ ts := (List.nodup_cons.mp hnd).1
      have hts : ∀ tg ∈ ts, (updateCounter st t (st t + 1)) tg + 1 <
          cfg.consecutive_error_threshold := by
        intro tg hmem
        have hne : tg ≠ t := fun h => htnotts (h ▸ hmem)
        simp only [updateCounter, if_neg hne]
        exact hbelow tg (List.mem_cons_of_mem t hmem)
      have ihr := ih (updateCounter st t (st t + 1)) (List.nodup_cons.mp hnd).2 hts
      rw [hstep]
      refine ⟨ihr.1, fun tg => ?_⟩
      rw [ihr.2 tg]
      by_cases hmem : tg ∈ ts
      · have hne : tg ≠ t := fun h => htnotts (h ▸ hmem)
        simp [hmem, updateCounter, hne]
      · by_cases heq : tg = t
        · subst heq
          simp [hmem, updateCounter]
        · simp [hmem, heq, updateCounter]

/-- C7: within a session (default threshold 3): a correct answer resets
every tag counter of the question and returns no drill; an incorrect
answer on a question with distinct tags, none of which reaches the
threshold, increments each of its tags' counters and returns no drill;
and on a single-tag question, four consecutive incorrect answers from a
zero counter return a drill exactly on the third call (for that tag,
counter reset to 0 afterwards), with no drill on the fourth. -/
theorem C7_consecutive_error_drill_trigger :
    (∀ (db : Db) (now : ℤ) (q : Question) (st : String → ℕ),
      (record_answer defaultConfig db now q true st).2 = none ∧
      ∀ tg ∈ q.skill_tags, (record_answer defaultConfig db now q true st).1 tg = 0) ∧
    (∀ (db : Db) (now : ℤ) (q : Question) (st : String → ℕ),
      q.skill_tags.Nodup → (∀ tg ∈ q.skill_tags, st tg + 1 < 3) →
      (record_answer defaultConfig db now q false st).2 = none ∧
      ∀ tg ∈ q.skill_tags,
        (record_answer defaultConfig db now q false st).1 tg = st tg + 1) ∧
    (∀ (db : Db) (now : ℤ) (q : Question) (st : String → ℕ),
      q.skill_tags = ["Assumption"] → st "Assumption" = 0 →
      (record_answer defaultConfig db now q false st).2 = none ∧
      (record_answer defaultConfig db now q false
          (record_answer defaultConfig db now q false st).1).2 = none ∧
      (record_answer defaultConfig db now q false
          (record_answer defaultConfig db now q false
            (record_answer defaultConfig db now q false st).1).1).2 =
        some (create_emergency_drill db "Assumption" now) ∧
      (create_emergency_drill db "Assumption" now).tag = "Assumption" ∧
      (record_answer defaultConfig db now q false
          (record_answer defaultConfig db now q false
            (record_answer defaultConfig db now q false st).1).1).1 "Assumption" = 0 ∧
      (record_answer defaultConfig db now q false
          (record_answer defaultConfig db now q false
            (record_answer defaultConfig db now q false
              (record_answer defaultConfig db now q false st).1).1).1).2 = none ∧
      (record_answer defaultConfig db now q false
          (record_answer defaultConfig db now q false
            (record_answer defaultConfig db now q false
              (record_answer defaultConfig db now q false st).1).1).1).1
        "Assumption" = 1) := by
  refine ⟨?_, ?_, ?_⟩
  · intro db now q st
    have h := record_loop_correct defaultConfig db now q.skill_tags st
    exact ⟨h.1, fun tg hmem => by rw [record_answer, h.2 tg, if_pos hmem]⟩
  · intro db now q st hnd hbelow
    have h := record_loop_incorrect_below defaultConfig db now q.skill_tags st hnd hbelow
    exact ⟨h.1, fun tg hmem => by rw [record_answer, h.2 tg, if_pos hmem]⟩
  · intro db now q st htags h0
    have hdrill : (create_emergency_drill db "Assumption" now).tag = "Assumption" := rfl
    simp [record_answer, htags, record_answer_loop, updateCounter, h0, defaultConfig,
      hdrill]

/-- Single-tag question used for the drill-trigger scenario. -/
def qAsm : Question :=
  { id := 3, passage_id := none, category := "Verbal", subcategory := "CR",
    content := "assume", options := ["A", "B", "C", "D", "E"], correct_answer := 2,
    skill_tags := ["Assumption"], difficulty := 3 }

def st0 : String → ℕ := fun _ => 0

/-- C7 witness: the third consecutive error on the concrete single-tag
question triggers the drill. -/
theorem C7_witness :
    (record_answer defaultConfig db6 0 qAsm false
        (record_answer defaultConfig db6 0 qAsm false
          (record_answer defaultConfig db6 0 qAsm false st0).1).1).2 =
      some (create_emergency_drill db6 "Assumption" 0) :=
  ((C7_consecutive_error_drill_trigger).2.2 db6 0 qAsm st0 (by rfl) (by rfl)).2.2.1

-- ===== counting lemmas for the plan-length claim =====

theorem length_filter_mem_eq {d s : List ℕ} (hd : d.Nodup) (hs : s.Nodup)
    (hsub : ∀ x ∈ s, x ∈ d) :
    (d.filter (fun x => x ∈ s)).length = s.length := by
  have hnodupf : (d.filter (fun x => x ∈ s)).Nodup := hd.filter _
  have hmemiff : ∀ x, x ∈ d.filter (fun x => x ∈ s) ↔ x ∈ s := by
    intro x
    simp only [List.mem_filter, decide_eq_true_eq]
    exact ⟨fun h => h.2, fun h => ⟨hsub x h, h⟩⟩
  have h1 : (d.filter (fun x => x ∈ s)).toFinset = s.toFinset := by
    ext x
    simp only [List.mem_toFinset]
    exact hmemiff x
  calc (d.filter (fun x => x ∈ s)).length
      = (d.filter (fun x => x ∈ s)).toFinset.card :=
        (List.toFinset_card_of_nodup hnodupf).symm
    _ = s.toFinset.card := by rw [h1]
    _ = s.length := List.toFinset_card_of_nodup hs

theorem ids_nodup_of_coe_le {ka pool : List Question}
    (h : ((ka : List Question) : Multiset Question) ≤ ↑pool)
    (hnd : (pool.map (fun q => q.id)).Nodup) :
    (ka.map (fun q => q.id)).Nodup := by
  have hmap := Multiset.map_le_map (f := fun q : Question => q.id) h
  rw [Multiset.map_coe, Multiset.map_coe] at hmap
  exact Multiset.coe_nodup.mp (Multiset.nodup_of_le hmap (Multiset.coe_nodup.mpr hnd))

theorem length_filter_id_mem (pool ka : List Question)
    (hnd : (pool.map (fun q => q.id)).Nodup)
    (hka : ((ka : List Question) : Multiset Question) ≤ ↑pool) :
    (pool.filter (fun q => q.id ∈ ka.map (fun x => x.id))).length = ka.length := by
  have hkan : (ka.map (fun q => q.id)).Nodup := ids_nodup_of_coe_le hka hnd
  have hmapfilter :
      (pool.filter (fun q => q.id ∈ ka.map (fun x => x.id))).map (fun q => q.id) =
        (pool.map (fun q => q.id)).filter (fun x => x ∈ ka.map (fun x => x.id)) := by
    simp [List.filter_map]
    congr 1
  have hsub : ∀ x ∈ ka.map (fun x => x.id), x ∈ pool.map (fun q => q.id) := by
    intro x hx
    obtain ⟨q, hq, rfl⟩ := List.mem_map.mp hx
    apply List.mem_map_of_mem
    have hqm : q ∈ (↑pool : Multiset Question) :=
      Multiset.mem_of_le hka (by exact_mod_cast hq)
    exact_mod_cast hqm
  have hlen := length_filter_mem_eq hnd hkan hsub
  calc (pool.filter (fun q => q.id ∈ ka.map (fun x => x.id))).length
      = ((pool.filter (fun q => q.id ∈ ka.map (fun x => x.id))).map
          (fun q => q.id)).length := (List.length_map _ _).symm
    _ = ((pool.map (fun q => q.id)).filter
          (fun x => x ∈ ka.map (fun x => x.id))).length := by rw [hmapfilter]
    _ = (ka.map (fun x => x.id)).length := hlen
    _ = ka.length := List.length_map _ _

theorem length_unseen_seen (l : List Question) (att : List ℕ) :
    (l.filter (fun q => q.id ∉ att)).length +
      (l.filter (fun q => q.id ∈ att)).length = l.length := by
  have h := congrArg Multiset.card (coe_unseen_seen l att)
  simpa using h

theorem filter_filter_same {α : Type} (p : α → Bool) (l : List α) :
    (l.filter p).filter p = l.filter p := by
  rw [List.filter_filter]
  apply List.filter_congr
  intro a _
  simp [Bool.and_self]

/-- Length of the no-RC selection: exactly `min target pool.length`,
provided ids are distinct and the keep-alive quota does not exceed the
target. -/
theorem select_norc_length (r : ℕ → ℕ) (ws : List UserWeakness)
    (target kac : ℕ) (pool : List Question) (att : List ℕ)
    (hnd : (pool.map (fun q => q.id)).Nodup)
    (hkac : kac ≤ target) :
    (select_norc r ws target kac pool att).length = min target pool.length := by
  simp only [select_norc]
  set unseen := pool.filter (fun q => q.id ∉ att) with hunseen
  set seen := pool.filter (fun q => q.id ∈ att) with hseen
  set mastered := (ws.filter (fun w => w.weight < 1 ∧ w.total_attempts ≥ 3)).map
    (fun w => w.tag) with hmastered
  set ka := (if mastered ≠ [] ∧ unseen ≠ [] then
      (if unseen.filter
          (fun q => q.skill_tags ≠ [] ∧ q.skill_tags.any (fun tg => tg ∈ mastered)) ≠ [] then
        draw r 0 (unseen.filter
          (fun q => q.skill_tags ≠ [] ∧ q.skill_tags.any (fun tg => tg ∈ mastered)))
          (min kac (unseen.filter
            (fun q => q.skill_tags ≠ [] ∧ q.skill_tags.any (fun tg => tg ∈ mastered))).length)
      else [])
    else []) with hka
  have hka_le : ((ka : List Question) : Multiset Question) ≤ ↑unseen := by
    rw [hka]
    split
    · split
      · exact le_trans (draw_coe_le r _ 0 _) (coe_filter_le _ unseen)
      · simp
    · simp
  have hka_len : ka.length ≤ kac := by
    rw [hka]
    split
    · split
      · rw [draw_length]
        exact le_trans (min_le_left _ _) (min_le_left _ _)
      · simp
    · simp
  have hndu : (unseen.map (fun q => q.id)).Nodup :=
    hnd.sublist ((List.filter_sublist pool).map _)
  have hcount : (unseen.filter (fun q => q.id ∈ ka.map (fun q => q.id))).length =
      ka.length := length_filter_id_mem unseen ka hndu hka_le
  have hmucount : (unseen.filter (fun q => q.id ∉ ka.map (fun q => q.id))).length +
      (unseen.filter (fun q => q.id ∈ ka.map (fun q => q.id))).length =
        unseen.length :=
    length_unseen_seen unseen (ka.map (fun q => q.id))
  have hpoolsplit : unseen.length + seen.length = pool.length := by
    have h := length_unseen_seen pool att
    rw [← hunseen, ← hseen] at h
    exact h
  split
  · next hbr =>
      rw [List.length_append, weighted_sample_length, filter_filter_same]
      omega
  · next hbr =>
      rw [List.length_append, List.length_append]
      have hrem : target - ka.length -
          (unseen.filter (fun q => q.id ∉ ka.map (fun q => q.id))).length > 0 := by
        omega
      rw [if_pos hrem, weighted_sample_length]
      have hseenfull : seen.filter (fun q => q.id ∉
          (ka.map (fun q => q.id) ++
            (unseen.filter (fun q => q.id ∉ ka.map (fun q => q.id))).map
              (fun q => q.id))) = seen := by
        apply List.filter_eq_self.mpr
        intro q hq
        have hqatt : q.id ∈ att := by
          rw [hseen] at hq
          have := List.mem_filter.mp hq
          simpa using this.2
        simp only [decide_eq_true_eq, List.mem_append]
        intro hcon
        have hnotatt : ∀ x ∈ unseen, x.id ∉ att := by
          intro x hx
          rw [hunseen] at hx
          have := List.mem_filter.mp hx
          simpa using this.2
        rcases hcon with hka' | hmu'
        · obtain ⟨qa, hqa, hid⟩ := List.mem_map.mp hka'
          have hqa_unseen : qa ∈ unseen := by
            have : qa ∈ (↑unseen : Multiset Question) :=
              Multiset.mem_of_le hka_le (by exact_mod_cast hqa)
            exact_mod_cast this
          exact hnotatt qa hqa_unseen (hid ▸ hqatt)
        · obtain ⟨qm, hqm, hid⟩ := List.mem_map.mp hmu'
          have hqm_unseen : qm ∈ unseen := (List.mem_filter.mp hqm).1
          exact hnotatt qm hqm_unseen (hid ▸ hqatt)
      rw [hseenfull]
      omega

theorem keep_alive_le (n : ℕ) (hn : 0 < n) :
    max 1 (Int.toNat ⌊(n : ℚ) * (1/10 : ℚ)⌋) ≤ n := by
  apply max_le hn
  have h0 : (0:ℚ) ≤ (n:ℚ) := by positivity
  have h1 : ((n : ℚ) * (1/10)) ≤ (n : ℚ) := by linarith
  have h2 : ⌊(n : ℚ) * (1/10)⌋ ≤ ⌊(n:ℚ)⌋ := Int.floor_mono h1
  rw [Int.floor_natCast] at h2
  omega

/-- Projection used to state counterexamples about generated plans. -/
def plan_questions (e : Except String DailyPlan) : List Question :=
  match e with
  | .ok p => p.questions
  | .error _ => []

/-- Two RC questions sharing passage 1. -/
def qR1 : Question :=
  { id := 1, passage_id := some 1, category := "Verbal", subcategory := "RC",
    content := "r1", options := ["A", "B", "C", "D", "E"], correct_answer := 0,
    skill_tags := ["Main Idea"], difficulty := 3 }

def qR2 : Question :=
  { id := 2, passage_id := some 1, category := "Verbal", subcategory := "RC",
    content := "r2", options := ["A", "B", "C", "D", "E"], correct_answer := 1,
    skill_tags := ["Detail"], difficulty := 3 }

def dbC5 : Db := { questions := [qR1, qR2], study_logs := [], weaknesses := [] }

/-- C5 counterexample: a pure-RC pool of one two-question passage with
target count 1 yields a plan of length 2, not `min 1 2 = 1` — whole
passages overshoot the exact target. -/
theorem C5_counterexample_rc_overshoot :
    (plan_questions (generate_daily_plan dbC5 defaultConfig rng0 (some 1)
        none none 0)).length = 2 ∧
    min 1 (candidate_pool dbC5 none).length = 1 ∧ (2 : ℕ) ≠ 1 := by
  refine ⟨rfl, rfl, by decide⟩

/-- C5 amended: with the default configuration and a positive target `n`,
whenever the filtered candidate pool contains no RC questions (so no
passage group can overshoot) and stored ids are distinct, the plan holds
exactly `min n pool_size` questions; a pool containing RC questions may
exceed the target by completing a passage group. -/
theorem C5_plan_length_min_without_rc (db : Db) (r : ℕ → ℕ) (n : ℕ)
    (sub : Option String) (now : ℤ) (plan : DailyPlan)
    (hn : 0 < n)
    (hids : (db.questions.map (fun q => q.id)).Nodup)
    (hnorc : ∀ q ∈ candidate_pool db sub, q.subcategory ≠ "RC")
    (hok : generate_daily_plan db defaultConfig r (some n) sub none now = .ok plan) :
    plan.questions.length = min n (candidate_pool db sub).length := by
  rw [generate_none_eq] at hok
  have hplan : plan_from_pool db defaultConfig r (target_of defaultConfig (some n))
      (candidate_pool db sub) now = plan := by injection hok
  have htarget : target_of defaultConfig (some n) = n := by
    have hne : n ≠ 0 := Nat.pos_iff_ne_zero.mp hn
    simp [target_of, hne]
  rw [htarget] at hplan
  subst hplan
  simp only [plan_from_pool]
  split
  · next hempty => simp [hempty]
  · next hnonempty =>
      have hrc : (candidate_pool db sub).filter (fun q => q.subcategory = "RC") = [] := by
        rw [List.filter_eq_nil_iff]
        intro q hq
        simpa using hnorc q hq
      have hcond1 : ¬((candidate_pool db sub).filter (fun q => q.subcategory = "RC") ≠ [] ∧
          (candidate_pool db sub).filter (fun q => q.subcategory ≠ "RC") = []) := by
        simp [hrc]
      have hcond2 : ¬((candidate_pool db sub).filter
          (fun q => q.subcategory = "RC") ≠ []) := by
        simp [hrc]
      rw [if_neg hcond1, if_neg hcond2]
      dsimp only
      rw [(shuffle_with_constraints_perm defaultConfig r 2000 _).length_eq]
      have hndpool : ((candidate_pool db sub).map (fun q => q.id)).Nodup := by
        have hsub : (candidate_pool db sub).Sublist db.questions := by
          cases sub with
          | some s => exact List.filter_sublist db.questions
          | none => exact List.Sublist.refl _
        exact hids.sublist (hsub.map _)
      have hkacle : max 1 (Int.toNat ⌊(n : ℚ) * defaultConfig.keep_alive_quota⌋) ≤ n := by
        have hq : defaultConfig.keep_alive_quota = 1/10 := rfl
        rw [hq]
        exact keep_alive_le n hn
      exact select_norc_length r _ n _ (candidate_pool db sub) _ hndpool hkacle

/-- C5 witness: the amended statement on the concrete two-CR-question
store with target 2 (pool size 2, plan length 2). -/
theorem C5_witness :
    0 < 2 ∧ plan6.questions.length = min 2 (candidate_pool db6 none).length :=
  ⟨by decide,
    C5_plan_length_min_without_rc db6 rng0 2 none 0 plan6 (by decide) (by decide)
      (by decide) (by rfl)⟩

/-- Two more RC questions sharing passage 2, for the adjacency claim. -/
def qR3 : Question :=
  { id := 3, passage_id := some 2, category := "Verbal", subcategory := "RC",
    content := "r3", options := ["A", "B", "C", "D", "E"], correct_answer := 2,
    skill_tags := ["Inference"], difficulty := 3 }

def qR4 : Question :=
  { id := 4, passage_id := some 2, category := "Verbal", subcategory := "RC",
    content := "r4", options := ["A", "B", "C", "D", "E"], correct_answer := 3,
    skill_tags := ["Tone"], difficulty := 3 }

def db4 : Db := { questions := [qR1, qR2, qR3, qR4], study_logs := [], weaknesses := [] }

/-- A seed stream under which `random.shuffle` interleaves the two
passage groups. -/
def rng4 : ℕ → ℕ := fun t => if t = 2001 then 1 else 0

set_option maxRecDepth 4000 in
/-- C4: under the seed stream `rng4` the generated plan is
`[qR1, qR3, qR2, qR4]` — questions `1` and `2` share passage `1`
(same passage key) but are separated by question `3` of passage `2`:
`_shuffle_with_constraints` permutes freely, so passage groups do not
stay adjacent after shuffling. -/
theorem C4_group_split_after_shuffle :
    (plan_questions (generate_daily_plan db4 defaultConfig rng4 (some 4)
        none none 0)).map (fun q => (q.id, q.passage_id)) =
      [(1, some 1), (3, some 2), (2, some 1), (4, some 2)] ∧
    get_passage_key qR1 = get_passage_key qR2 ∧
    get_passage_key qR1 ≠ get_passage_key qR3 := by
  refine ⟨rfl, rfl, by decide⟩

end GmatTutor
